import Mathlib

/-!
Verification of the p2p_file_server repository (Rust).

The development is a shallow embedding of the core of `src/lib.rs` and
`src/main.rs`:

* Bytes are modeled as `Nat` (values below 256 on real executions; none of
  the verified properties depend on that bound).
* The TCP stream wrapped by `Chunk<'a, N>` is modeled by two byte lists:
  `input` (the bytes still available to `read`/`read_exact`) and `output`
  (the bytes passed to `write_all` so far).  Writes to the socket are
  modeled as always succeeding; reads can fail (end of stream), which
  models `io::Result` errors on the read path.
* A Rust computation that can fail is embedded as an `Outcome`:
  `ok` (the `Ok` value), `ioError` (an `Err(io::Error)` returned to the
  caller), `panicked` (a Rust panic: `expect`/`unwrap`/slice-bounds/
  `copy_from_slice` length mismatch), and `diverged` (an infinite loop).
* The two `while` loops of `send_file` / `receive_file` advance by at least
  one byte per iteration or repeat the same state forever; they are embedded
  with an explicit iteration bound (`file_size + 1`, always sufficient) and
  `diverged` when a read returns zero bytes, which in the source makes the
  loop spin forever.
-/

namespace P2P

/-- Result of running an embedded fragment of the program: a returned value,
an `io::Result` error propagated to the caller, a Rust panic, or an
infinite loop. -/
inductive Outcome (α : Type) where
  | ok : α → Outcome α
  | ioError : Outcome α
  | panicked : Outcome α
  | diverged : Outcome α
  deriving DecidableEq, Repr

/-- Sequencing of fallible computations; models Rust's postfix `?`
operator (and a panic or divergence inside the first computation aborting
the whole one). -/
def Outcome.andThen {α β : Type} : Outcome α → (α → Outcome β) → Outcome β
  | .ok a, f => f a
  | .ioError, _ => .ioError
  | .panicked, _ => .panicked
  | .diverged, _ => .diverged

/-- Little-endian base-256 encoding of a natural number, `w` bytes wide;
models `usize::to_le_bytes` when `w = 8` (the value is encoded modulo
`2^64`, and a Rust `usize` is always below `2^64`). -/
def toLeBytes : Nat → Nat → List Nat
  | 0, _ => []
  | w + 1, v => v % 256 :: toLeBytes w (v / 256)

/-- Little-endian base-256 decoding; models `usize::from_le_bytes`. -/
def fromLeBytes : List Nat → Nat
  | [] => 0
  | b :: rest => b + 256 * fromLeBytes rest

/-- Model of the struct `Chunk<'a, N>` of `src/lib.rs` (lines 15-20)
together with the two directions of the borrowed `TcpStream`:
`input` are the bytes the peer has sent that were not read yet, `output`
are the bytes written to the stream so far.  `buffer`, `bytes_sent` and
`last_insert` are the struct fields of the same names. -/
structure Chunk (N : Nat) where
  input : List Nat
  output : List Nat
  buffer : List Nat
  bytes_sent : Nat
  last_insert : Nat
  deriving DecidableEq, Repr

/-- Model of `Chunk::new` (lib.rs 23-30): zeroed buffer of length `N`,
counters at zero; `input` is the pending stream content for the run under
consideration. -/
def Chunk.init (N : Nat) (input : List Nat) : Chunk N :=
  { input := input, output := [], buffer := List.replicate N 0,
    bytes_sent := 0, last_insert := 0 }

/-- Model of `Chunk::reset` (lib.rs 53-56). -/
def Chunk.reset {N : Nat} (c : Chunk N) : Chunk N :=
  { c with bytes_sent := 0, last_insert := 0 }

/-- Model of `Chunk::read` (lib.rs 75-79): one call to `TcpStream::read`
into `buffer[..count]`.  Indexing `buffer[..count]` with `count > N`
panics.  The single read call is modeled deterministically as delivering
all currently available bytes up to `count` (on a loopback stream all of
the peer's bytes are available); it returns the number of bytes read and
sets `last_insert` to `count` exactly as the source does. -/
def Chunk.read {N : Nat} (c : Chunk N) (count : Nat) : Outcome (Nat × Chunk N) :=
  if count ≤ N then
    let r := min count c.input.length
    .ok (r, { c with buffer := c.input.take r ++ c.buffer.drop r,
                     input := c.input.drop r,
                     last_insert := count })
  else .panicked

/-- Model of `Chunk::read_stream` (lib.rs 81-85): `read_exact` into
`buffer[..count]`.  Slicing with `count > N` panics; an end of stream
before `count` bytes is the `UnexpectedEof` I/O error returned to the
caller. -/
def Chunk.read_stream {N : Nat} (c : Chunk N) (count : Nat) : Outcome (Chunk N) :=
  if count ≤ N then
    if count ≤ c.input.length then
      .ok { c with buffer := c.input.take count ++ c.buffer.drop count,
                   input := c.input.drop count,
                   last_insert := count }
    else .ioError
  else .panicked

/-- Model of `Chunk::write_to_buf` (lib.rs 87-93): `bytes_to_write` is
`min(buffer.len(), items.len())`, and `buffer[..bytes_to_write]
.copy_from_slice(items)` panics unless the two slices have equal length,
i.e. unless `items.len() ≤ N`.  (So input longer than the buffer is NOT
silently truncated: the copy panics.) -/
def Chunk.write_to_buf {N : Nat} (c : Chunk N) (items : List Nat) : Outcome (Nat × Chunk N) :=
  let bytes_to_write := min N items.length
  if bytes_to_write = items.length then
    .ok (bytes_to_write,
      { c with buffer := items.take bytes_to_write ++ c.buffer.drop bytes_to_write,
               last_insert := bytes_to_write })
  else .panicked

/-- Model of `Chunk::send` (lib.rs 100-104): `write_all(&buffer[..count])`
then `bytes_sent += count`.  Stream writes are modeled as always
succeeding; every call site keeps `count ≤ N`, so the slice bound holds
on all reachable states. -/
def Chunk.send {N : Nat} (c : Chunk N) (count : Nat) : Chunk N :=
  { c with output := c.output ++ c.buffer.take count,
           bytes_sent := c.bytes_sent + count }

/-- Model of `Chunk::send_last_write` (lib.rs 106-110). -/
def Chunk.send_last_write {N : Nat} (c : Chunk N) : Chunk N :=
  c.send c.last_insert

/-- Model of `Chunk::write_and_send` (lib.rs 95-98): `write_to_buf`
(its returned count discarded, as in the source) then `send_last_write`. -/
def Chunk.write_and_send {N : Nat} (c : Chunk N) (items : List Nat) : Outcome (Chunk N) :=
  Outcome.andThen (c.write_to_buf items) fun pr => .ok pr.2.send_last_write

/-- Model of `Chunk::to_byte_array::<S>` (lib.rs 68-73): asserts `S ≤ N`
and returns the first `S` buffer bytes. -/
def Chunk.to_byte_array {N : Nat} (c : Chunk N) (S : Nat) : Outcome (List Nat) :=
  if S ≤ N then .ok (c.buffer.take S) else .panicked

/-- Model of `write_usize` (lib.rs 113-116). -/
def write_usize {N : Nat} (c : Chunk N) (value : Nat) : Outcome (Chunk N) :=
  c.write_and_send (toLeBytes 8 value)

/-- Model of `read_usize` (lib.rs 118-123).  The source calls
`read_stream(8).expect(...)`: an I/O error on the 8-byte prefix read is
turned into a panic, not returned (`read_usize` returns a plain `usize`,
not a `Result`). -/
def read_usize {N : Nat} (c : Chunk N) : Outcome (Nat × Chunk N) :=
  match c.read_stream 8 with
  | .ok c1 =>
    match c1.to_byte_array 8 with
    | .ok bytes => .ok (fromLeBytes bytes, c1)
    | _ => .panicked
  | _ => .panicked

/-- Model of `write_string` (lib.rs 125-128).  A Rust `&str` is modeled by
its UTF-8 byte sequence, so `str.as_bytes().len()` is the list length. -/
def write_string {N : Nat} (c : Chunk N) (s : List Nat) : Outcome (Chunk N) :=
  Outcome.andThen (c.write_and_send (toLeBytes 8 s.length)) fun c1 =>
    c1.write_and_send s

/-- Model of `read_string` (lib.rs 130-139), at the byte level: a zero
length prefix short-circuits to the empty string without a second read;
otherwise the payload is read with `read_stream` and the first
`file_name_count` buffer bytes are returned.  (`String::from_utf8_lossy`
is the identity on the UTF-8 bytes of any Rust string, so byte-level
round-tripping is string round-tripping.) -/
def read_string {N : Nat} (c : Chunk N) : Outcome (List Nat × Chunk N) :=
  Outcome.andThen (read_usize c) fun pr =>
    if pr.1 = 0 then .ok ([], pr.2)
    else
      Outcome.andThen (pr.2.read_stream pr.1) fun c2 =>
        .ok (c2.buffer.take pr.1, c2)

/-- Model of the `while chunk.sent() < file_size` loop of `send_file`
(lib.rs 167-171).  `rem` is the not-yet-read tail of the file;
`File::read` is modeled as delivering the requested bytes (bounded by what
remains).  The first argument is an iteration bound: each productive
iteration sends at least one byte, so `file_size + 1` iterations always
suffice; a read delivering zero bytes repeats the same state forever in
the source and is embedded as `diverged`. -/
def sendLoop {N : Nat} (file_size : Nat) : Nat → Chunk N → List Nat → Outcome (Chunk N)
  | 0, _, _ => .diverged
  | fuel + 1, c, rem =>
    if c.bytes_sent < file_size then
      let bytes_to_read := min N (file_size - c.bytes_sent)
      let bytes_read := min bytes_to_read rem.length
      if bytes_read = 0 then .diverged
      else
        sendLoop file_size fuel
          (({ c with buffer := rem.take bytes_read ++ c.buffer.drop bytes_read
              } : Chunk N).send bytes_read)
          (rem.drop bytes_read)
    else .ok c

/-- Model of `send_file` (lib.rs 152-174).  The filesystem is abstracted
to the file's content: `none` when `Path::new(file_name).exists()` is
false, `some contents` otherwise (with `file_size` the metadata length,
equal to the content length). -/
def send_file {N : Nat} (c : Chunk N) (file : Option (List Nat)) : Outcome (Chunk N) :=
  match file with
  | none => write_usize c 0
  | some contents =>
    let file_size := contents.length
    Outcome.andThen (write_usize c file_size) fun c1 =>
      sendLoop file_size (file_size + 1) c1.reset contents

/-- Model of the `while bytes_received < file_size` loop of `receive_file`
(lib.rs 189-195): each iteration reads up to
`min(N, file_size - bytes_received)` bytes with `Chunk::read`, appends
`chunk.slice(bytes_to_read)` to the accumulator, and adds `bytes_read` to
`bytes_received` — exactly the source, including extending by
`bytes_to_read` (not `bytes_read`) buffer bytes.  Iteration bound and
`diverged` as in `sendLoop`. -/
def recvLoop {N : Nat} (file_size : Nat) :
    Nat → Chunk N → Nat → List Nat → Outcome (List Nat × Chunk N)
  | 0, _, _, _ => .diverged
  | fuel + 1, c, bytes_received, acc =>
    if bytes_received < file_size then
      let bytes_to_read := min N (file_size - bytes_received)
      match c.read bytes_to_read with
      | .ok pr =>
        if pr.1 = 0 then .diverged
        else recvLoop file_size fuel pr.2 (bytes_received + pr.1)
              (acc ++ pr.2.buffer.take bytes_to_read)
      | .ioError => .ioError
      | .panicked => .panicked
      | .diverged => .diverged
    else .ok (acc, c)

/-- Model of `receive_file` (lib.rs 176-198): `file_size == 0` returns
`None` (the absent marker) without touching the stream; otherwise the
chunk is reset and the receive loop assembles the payload, returned as
`Some`. -/
def receive_file {N : Nat} (c : Chunk N) (file_size : Nat) :
    Outcome (Option (List Nat) × Chunk N) :=
  if file_size = 0 then .ok (none, c)
  else
    Outcome.andThen (recvLoop file_size (file_size + 1) c.reset 0 []) fun pr =>
      .ok (some pr.1, pr.2)

/-- Wire encoding of a length-prefixed string (what `write_string` puts on
the stream). -/
def encodeString (s : List Nat) : List Nat :=
  toLeBytes 8 s.length ++ s

/-- Concatenated wire encodings of a list of strings. -/
def encodeStrings (l : List (List Nat)) : List Nat :=
  (l.map encodeString).flatten

/-- The server-side directory `server_files`, modeled as an association
list from bare file name to content; the first binding for a name is the
current one. -/
abbrev Fs := List (List Nat × List Nat)

/-- Lookup of a name in the server directory (models
`Path::new(&format!("server_files/{name}")).exists()` plus reading the
file). -/
def fsLookup : Fs → List Nat → Option (List Nat)
  | [], _ => none
  | (n, contents) :: rest, name =>
    if n = name then some contents else fsLookup rest name

/-- Model of `fs::write("server_files/{name}", contents)`: create or
overwrite. -/
def fsWrite (fs : Fs) (name contents : List Nat) : Fs :=
  (name, contents) :: fs

/-- Model of `HashSet::insert` on the shared file index (a duplicate-free
list standing for the unordered set): add the name unless it is already
present. -/
def indexInsert (name : List Nat) (index : List (List Nat)) : List (List Nat) :=
  if name ∈ index then index else name :: index

/-- Splits a byte string at every `/` (byte 47), keeping empty pieces;
helper for the `Path::file_name` model. -/
def splitSlash : List Nat → List (List Nat)
  | [] => [[]]
  | b :: rest =>
    if b = 47 then [] :: splitSlash rest
    else
      match splitSlash rest with
      | [] => [[b]]
      | h :: t => (b :: h) :: t

/-- Model of `Path::new(s).file_name()` on Unix: the last normal path
component.  `Path::components` drops empty pieces (repeated or trailing
separators) and `.` pieces; `file_name` is `None` when no component is
left or the last component is `..`, which is exactly when
`add_file`'s `.unwrap()` panics. -/
def pathFileName (s : List Nat) : Option (List Nat) :=
  let comps := (splitSlash s).filter fun p => !(p == []) && !(p == [46])
  match comps.getLast? with
  | none => none
  | some last => if last = [46, 46] then none else some last

/-- Model of `add_file` (main.rs 17-41), the Upload handler: read the file
name (string) and declared size (uint), receive the payload, THEN take the
base name with `Path::file_name().unwrap()` (a panic when the name has no
final component — note this happens whether or not a payload was
received), and only when a payload was received write the file under the
bare name and insert that name into the shared index.  The `HashSet`
index is modeled as a duplicate-free list with `indexInsert`
(insert-if-absent, exactly `HashSet::insert`'s effect on the contents). -/
def add_file {N : Nat} (c : Chunk N) (fs : Fs) (index : List (List Nat)) :
    Outcome (Chunk N × Fs × List (List Nat)) :=
  Outcome.andThen (read_string c) fun pr1 =>
  Outcome.andThen (read_usize pr1.2) fun pr2 =>
  Outcome.andThen (receive_file pr2.2 pr2.1) fun pr3 =>
  match pathFileName pr1.1 with
  | none => .panicked
  | some base =>
    match pr3.1 with
    | some contents => .ok (pr3.2, fsWrite fs base contents, indexInsert base index)
    | none => .ok (pr3.2, fs, index)

/-- Model of `get_file` (main.rs 43-57), the Download handler: read the
requested name; if `server_files/{name}` does not exist write the `uint`
sentinel 0 and return success, otherwise stream the file with
`send_file`. -/
def get_file {N : Nat} (c : Chunk N) (fs : Fs) : Outcome (Chunk N) :=
  Outcome.andThen (read_string c) fun pr =>
  match fsLookup fs pr.1 with
  | none => write_usize pr.2 0
  | some contents => send_file pr.2 (some contents)

/-- The `for file in shared_files.iter()` loop of `fetch_files`
(main.rs 63-65): write each name as a string. -/
def writeStrings {N : Nat} : List (List Nat) → Chunk N → Outcome (Chunk N)
  | [], c => .ok c
  | s :: rest, c =>
    Outcome.andThen (write_string c s) fun c1 => writeStrings rest c1

/-- Model of `fetch_files` (main.rs 59-67), the ListFiles handler: write
the index size as a uint, then every name as a string (all of it while
holding the index lock — see the event-trace model below). -/
def fetch_files {N : Nat} (c : Chunk N) (index : List (List Nat)) : Outcome (Chunk N) :=
  Outcome.andThen (write_usize c index.length) fun c1 =>
    writeStrings index c1

/-- Model of one iteration of the dispatch loop in `handle_client`
(main.rs 74-88): read exactly one byte, interpret it via
`to_byte_array::<1>` as the op code, and dispatch; any byte outside
`{0,1,2,3}` hits `panic!("Unknown op byte")`. -/
def handle_op {N : Nat} (c : Chunk N) (fs : Fs) (index : List (List Nat)) :
    Outcome (Chunk N × Fs × List (List Nat)) :=
  Outcome.andThen (c.read_stream 1) fun c0 =>
  Outcome.andThen (c0.to_byte_array 1) fun bytes =>
  match bytes.headD 0 with
  | 0 => add_file c0 fs index
  | 1 => Outcome.andThen (get_file c0 fs) fun c1 => .ok (c1, fs, index)
  | 2 => Outcome.andThen (fetch_files c0 index) fun c1 => .ok (c1, fs, index)
  | 3 => .ok (c0, fs, index)
  | _ => .panicked

/-- Model of `Chunk::run_loop` as used by `handle_client` (lib.rs 32-40,
main.rs 70-89): repeat `handle_op` until it fails; the source loop never
returns normally, so the fuel-exhaustion case is `diverged` (the
connection staying open is not an error). -/
def run_loop {N : Nat} : Nat → Chunk N → Fs → List (List Nat) →
    Outcome (Chunk N × Fs × List (List Nat))
  | 0, _, _, _ => .diverged
  | fuel + 1, c, fs, index =>
    Outcome.andThen (handle_op c fs index) fun st =>
      run_loop fuel st.1 st.2.1 st.2.2

/-- The wire bytes of one Upload request body (after the op byte): the
encoded file name, the declared size, and the raw payload. -/
def uploadRequest (f : List Nat) (sz : Nat) (payload : List Nat) : List Nat :=
  encodeString f ++ toLeBytes 8 sz ++ payload

/-- Projection of the index component out of a dispatch/handler result. -/
def indexAfter {N : Nat} (r : Outcome (Chunk N × Fs × List (List Nat))) :
    Option (List (List Nat)) :=
  match r with
  | .ok st => some st.2.2
  | _ => none

/-- Loopback harness for file streaming: run `send_file` on a fresh
channel, hand everything it wrote to a fresh receiving channel, read the
size prefix with `read_usize`, and decode the rest with `receive_file`
at that declared size — the round-trip of §4.3. -/
def loopback (N : Nat) (file : List Nat) : Outcome (Option (List Nat)) :=
  match send_file (Chunk.init N []) (some file) with
  | .ok c1 =>
    match read_usize (Chunk.init N c1.output) with
    | .ok pr =>
      match receive_file pr.2 pr.1 with
      | .ok pr2 => .ok pr2.1
      | .ioError => .ioError
      | .panicked => .panicked
      | .diverged => .diverged
    | .ioError => .ioError
    | .panicked => .panicked
    | .diverged => .diverged
  | .ioError => .ioError
  | .panicked => .panicked
  | .diverged => .diverged

/-- Loopback harness for the string codec: encode with `write_string` on a
fresh channel, decode what it wrote with `read_string`. -/
def stringLoopback (N : Nat) (s : List Nat) : Outcome (List Nat) :=
  match write_string (Chunk.init N []) s with
  | .ok c1 =>
    match read_string (Chunk.init N c1.output) with
    | .ok pr => .ok pr.1
    | .ioError => .ioError
    | .panicked => .panicked
    | .diverged => .diverged
  | .ioError => .ioError
  | .panicked => .panicked
  | .diverged => .diverged

/-- Events of a connection handler relevant to the lock discipline of the
Shared File Index: acquiring/releasing its mutex and performing stream or
filesystem I/O. -/
inductive Ev where
  | lockAcquire : Ev
  | lockRelease : Ev
  | streamIO : Ev
  deriving DecidableEq, Repr

/-- Event trace of `fetch_files` (main.rs 59-67): the guard is taken on
line 60 and lives to the end of the function, so the `write_usize` of the
count and the `write_string` of every name happen while the lock is
held. -/
def fetchFilesEvents (index : List (List Nat)) : List Ev :=
  Ev.lockAcquire :: Ev.streamIO ::
    ((index.map fun _ => Ev.streamIO) ++ [Ev.lockRelease])

/-- Event trace of `add_file` (main.rs 17-41): stream reads for the name,
the size and the payload; then, only when a payload was stored, the
filesystem write (line 32) BEFORE the lock is taken (lines 35-36), the
insert under the lock, and the release at the end of the `if let` block.
`stored` tells whether a payload was received. -/
def addFileEvents (stored : Bool) : List Ev :=
  [Ev.streamIO, Ev.streamIO, Ev.streamIO] ++
    (if stored then [Ev.streamIO, Ev.lockAcquire, Ev.lockRelease] else [])

/-- Whether some I/O event of the trace happens while the lock is held
(`locked` is the state at the head of the trace). -/
def ioWhileLocked : Bool → List Ev → Bool
  | _, [] => false
  | _, Ev.lockAcquire :: rest => ioWhileLocked true rest
  | _, Ev.lockRelease :: rest => ioWhileLocked false rest
  | locked, Ev.streamIO :: rest => locked || ioWhileLocked locked rest

/-! ### Basic facts about the integer codec -/

theorem toLeBytes_length : ∀ (w v : Nat), (toLeBytes w v).length = w
  | 0, _ => rfl
  | w + 1, v => by simp [toLeBytes, toLeBytes_length w]

theorem fromLeBytes_toLeBytes : ∀ (w v : Nat), fromLeBytes (toLeBytes w v) = v % 256 ^ w
  | 0, v => by simp [toLeBytes, fromLeBytes, Nat.mod_one]
  | w + 1, v => by
    rw [toLeBytes, fromLeBytes, fromLeBytes_toLeBytes w]
    rw [pow_succ, mul_comm (256 ^ w) 256, Nat.mod_mul]

theorem fromLeBytes_toLeBytes_of_lt {w v : Nat} (h : v < 256 ^ w) :
    fromLeBytes (toLeBytes w v) = v := by
  rw [fromLeBytes_toLeBytes, Nat.mod_eq_of_lt h]

/-! ### Behavior of the framed-channel primitives on sufficient input -/

theorem Chunk.read_stream_ok {N : Nat} (c : Chunk N) (count : Nat)
    (h1 : count ≤ N) (h2 : count ≤ c.input.length) :
    c.read_stream count =
      .ok { c with buffer := c.input.take count ++ c.buffer.drop count,
                   input := c.input.drop count,
                   last_insert := count } := by
  unfold Chunk.read_stream
  rw [if_pos h1, if_pos h2]

theorem Chunk.write_and_send_ok {N : Nat} (c : Chunk N) (items : List Nat)
    (h : items.length ≤ N) :
    c.write_and_send items =
      .ok { c with buffer := items ++ c.buffer.drop items.length,
                   output := c.output ++ items,
                   bytes_sent := c.bytes_sent + items.length,
                   last_insert := items.length } := by
  have hmin : min N items.length = items.length := min_eq_right h
  have htake : (items ++ c.buffer.drop items.length).take items.length = items :=
    List.take_left' rfl
  simp [Chunk.write_and_send, Chunk.write_to_buf, hmin, Outcome.andThen,
        Chunk.send_last_write, Chunk.send, htake]

theorem write_usize_ok {N : Nat} (c : Chunk N) (v : Nat) (h8 : 8 ≤ N) :
    write_usize c v =
      .ok { c with buffer := toLeBytes 8 v ++ c.buffer.drop 8,
                   output := c.output ++ toLeBytes 8 v,
                   bytes_sent := c.bytes_sent + 8,
                   last_insert := 8 } := by
  have hlen : (toLeBytes 8 v).length = 8 := toLeBytes_length 8 v
  rw [write_usize, Chunk.write_and_send_ok c _ (by rw [hlen]; exact h8), hlen]

theorem read_usize_ok {N : Nat} (c : Chunk N) (v : Nat) (rest : List Nat)
    (h8 : 8 ≤ N) (hv : v < 2 ^ 64) (hin : c.input = toLeBytes 8 v ++ rest) :
    read_usize c =
      .ok (v, { c with buffer := toLeBytes 8 v ++ c.buffer.drop 8,
                       input := rest, last_insert := 8 }) := by
  have hlen : (toLeBytes 8 v).length = 8 := toLeBytes_length 8 v
  have h2 : 8 ≤ c.input.length := by
    rw [hin, List.length_append, hlen]; omega
  have hv' : v < 256 ^ 8 := by
    have : (256 : Nat) ^ 8 = 2 ^ 64 := by norm_num
    omega
  unfold read_usize
  rw [Chunk.read_stream_ok c 8 h8 h2, hin, List.take_left' hlen, List.drop_left' hlen]
  simp [Chunk.to_byte_array, h8, List.take_left' hlen,
        fromLeBytes_toLeBytes_of_lt hv']

theorem read_usize_ok' {N : Nat} (c : Chunk N) (v : Nat) (rest : List Nat)
    (h8 : 8 ≤ N) (hv : v < 2 ^ 64) (hin : c.input = toLeBytes 8 v ++ rest) :
    ∃ c2, read_usize c = .ok (v, c2) ∧ c2.input = rest ∧ c2.output = c.output :=
  ⟨_, read_usize_ok c v rest h8 hv hin, rfl, rfl⟩

theorem write_string_ok {N : Nat} (c : Chunk N) (s : List Nat)
    (h8 : 8 ≤ N) (hs : s.length ≤ N) :
    ∃ c2, write_string c s = .ok c2 ∧
      c2.output = c.output ++ encodeString s ∧ c2.input = c.input := by
  have hlen : (toLeBytes 8 s.length).length = 8 := toLeBytes_length 8 _
  rw [write_string, Chunk.write_and_send_ok c _ (by rw [hlen]; exact h8)]
  simp only [Outcome.andThen]
  rw [Chunk.write_and_send_ok _ s hs]
  refine ⟨_, rfl, ?_, rfl⟩
  simp [encodeString, hlen]

theorem read_string_ok {N : Nat} (c : Chunk N) (s rest : List Nat)
    (h8 : 8 ≤ N) (hs : s.length ≤ N) (hlt : s.length < 2 ^ 64)
    (hin : c.input = encodeString s ++ rest) :
    ∃ c2, read_string c = .ok (s, c2) ∧
      c2.input = rest ∧ c2.output = c.output := by
  rw [encodeString, List.append_assoc] at hin
  rw [read_string, read_usize_ok c s.length (s ++ rest) h8 hlt hin]
  simp only [Outcome.andThen]
  rcases Decidable.em (s.length = 0) with h0 | h0
  · have hs0 : s = [] := List.length_eq_zero.mp h0
    subst hs0
    rw [if_pos h0]
    exact ⟨_, rfl, by simp, rfl⟩
  · rw [if_neg h0]
    have h2 : s.length ≤ (s ++ rest).length := by
      rw [List.length_append]; omega
    rw [Chunk.read_stream_ok _ s.length hs h2]
    simp only [Outcome.andThen]
    have e1 : (s ++ rest).take s.length = s := List.take_left' rfl
    have e2 : (s ++ rest).drop s.length = rest := List.drop_left' rfl
    rw [e1, e2]
    have e3 : ∀ Y : List Nat, (s ++ Y).take s.length = s := fun _ => List.take_left' rfl
    rw [e3]
    exact ⟨_, rfl, rfl, rfl⟩

/-! ### Behavior of the streaming loops on sufficient input -/

theorem sendLoop_ok {N : Nat} (file_size : Nat) (hN : 0 < N) :
    ∀ (fuel : Nat) (c : Chunk N) (rem : List Nat),
      c.bytes_sent + rem.length = file_size → rem.length < fuel →
      ∃ c2, sendLoop file_size fuel c rem = .ok c2 ∧
        c2.output = c.output ++ rem ∧ c2.input = c.input := by
  intro fuel
  induction fuel with
  | zero => intro c rem h1 h2; omega
  | succ fuel ih =>
    intro c rem h1 h2
    rcases Decidable.em (c.bytes_sent < file_size) with hlt | hlt
    · have hrem : 0 < rem.length := by omega
      have hbr : min (min N (file_size - c.bytes_sent)) rem.length =
          min N (file_size - c.bytes_sent) := by omega
      have hbrpos : 0 < min N (file_size - c.bytes_sent) := by omega
      have hbrle : min N (file_size - c.bytes_sent) ≤ rem.length := by omega
      rw [sendLoop, if_pos hlt]
      simp only [hbr]
      rw [if_neg (by omega)]
      set br := min N (file_size - c.bytes_sent) with hbrdef
      have htake : ((rem.take br ++ c.buffer.drop br).take br) = rem.take br :=
        List.take_left' (by rw [List.length_take]; omega)
      obtain ⟨c2, hrun, hout, hinp⟩ :=
        ih (({ c with buffer := rem.take br ++ c.buffer.drop br } : Chunk N).send br)
          (rem.drop br)
          (by simp [Chunk.send, List.length_drop]; omega)
          (by simp [List.length_drop]; omega)
      refine ⟨c2, hrun, ?_, hinp⟩
      rw [hout]
      simp [Chunk.send, htake, List.append_assoc, List.take_append_drop]
    · have hrem : rem.length = 0 := by omega
      have : rem = [] := List.length_eq_zero.mp hrem
      subst this
      rw [sendLoop, if_neg hlt]
      exact ⟨c, rfl, by simp, rfl⟩

theorem recvLoop_ok {N : Nat} (file_size : Nat) (hN : 0 < N) :
    ∀ (fuel : Nat) (c : Chunk N) (br acc : _),
      br ≤ file_size → file_size - br ≤ c.input.length → file_size - br < fuel →
      ∃ c2, recvLoop file_size fuel c br acc =
              .ok (acc ++ c.input.take (file_size - br), c2) ∧
        c2.input = c.input.drop (file_size - br) ∧ c2.output = c.output := by
  intro fuel
  induction fuel with
  | zero => intro c br acc h1 h2 h3; omega
  | succ fuel ih =>
    intro c br acc h1 h2 h3
    rcases Decidable.em (br < file_size) with hlt | hlt
    · have hbtrpos : 0 < min N (file_size - br) := by omega
      have hbtrle : min N (file_size - br) ≤ c.input.length := by omega
      rw [recvLoop, if_pos hlt]
      set btr := min N (file_size - br) with hbtrdef
      have hread : c.read btr =
          .ok (btr, { c with buffer := c.input.take btr ++ c.buffer.drop btr,
                             input := c.input.drop btr,
                             last_insert := btr }) := by
        unfold Chunk.read
        rw [if_pos (by omega)]
        have : min btr c.input.length = btr := by omega
        simp only [this]
      simp only [hread]
      rw [if_neg (by omega)]
      have htake : ((c.input.take btr ++ c.buffer.drop btr).take btr) = c.input.take btr :=
        List.take_left' (by rw [List.length_take]; omega)
      obtain ⟨c2, hrun, hinp, hout⟩ :=
        ih ({ c with buffer := c.input.take btr ++ c.buffer.drop btr,
                     input := c.input.drop btr, last_insert := btr } : Chunk N)
          (br + btr) (acc ++ (c.input.take btr ++ c.buffer.drop btr).take btr)
          (by omega) (by simp [List.length_drop]; omega) (by omega)
      refine ⟨c2, ?_, ?_, hout⟩
      · rw [hrun, htake]
        have hsplit : c.input.take (file_size - br) =
            c.input.take btr ++ (c.input.drop btr).take (file_size - (br + btr)) := by
          have : file_size - br = btr + (file_size - (br + btr)) := by omega
          rw [this, List.take_add]
        rw [hsplit, List.append_assoc]
      · rw [hinp]
        simp only [List.drop_drop]
        have : btr + (file_size - (br + btr)) = file_size - br := by omega
        rw [this]
    · have hstop : file_size - br = 0 := by omega
      rw [recvLoop, if_neg hlt]
      rw [hstop]
      exact ⟨c, by simp, by simp, rfl⟩

theorem send_file_ok {N : Nat} (c : Chunk N) (contents : List Nat) (h8 : 8 ≤ N) :
    ∃ c2, send_file c (some contents) = .ok c2 ∧
      c2.output = c.output ++ toLeBytes 8 contents.length ++ contents ∧
      c2.input = c.input := by
  simp only [send_file]
  rw [write_usize_ok c contents.length h8]
  simp only [Outcome.andThen]
  obtain ⟨c2, hrun, hout, hinp⟩ :=
    sendLoop_ok (N := N) contents.length (by omega) (contents.length + 1)
      ({ c with buffer := toLeBytes 8 contents.length ++ c.buffer.drop 8,
                output := c.output ++ toLeBytes 8 contents.length,
                bytes_sent := c.bytes_sent + 8, last_insert := 8 } : Chunk N).reset
      contents (by simp [Chunk.reset]) (by omega)
  refine ⟨c2, hrun, ?_, hinp⟩
  rw [hout]
  simp [Chunk.reset, List.append_assoc]

theorem receive_file_ok {N : Nat} (c : Chunk N) (sz : Nat) (payload rest : List Nat)
    (hN : 0 < N) (hsz : 0 < sz) (hp : payload.length = sz)
    (hin : c.input = payload ++ rest) :
    ∃ c2, receive_file c sz = .ok (some payload, c2) ∧
      c2.input = rest ∧ c2.output = c.output := by
  rw [receive_file, if_neg (by omega)]
  obtain ⟨c2, hrun, hinp, hout⟩ :=
    recvLoop_ok (N := N) sz hN (sz + 1) c.reset 0 []
      (by omega) (by simp [Chunk.reset, hin, List.length_append]; omega) (by omega)
  have htake : c.input.take (sz - 0) = payload := by
    rw [hin, Nat.sub_zero, List.take_left' hp]
  have hdrop : c.input.drop (sz - 0) = rest := by
    rw [hin, Nat.sub_zero, List.drop_left' hp]
  refine ⟨c2, ?_, ?_, ?_⟩
  · rw [hrun]
    simp only [Outcome.andThen, Chunk.reset]
    rw [show ({ c with bytes_sent := 0, last_insert := 0 } : Chunk N).input = c.input
          from rfl, htake]
    simp
  · rw [hinp]
    have : (c.reset).input = c.input := rfl
    rw [this, hdrop]
  · rw [hout]; rfl

/-! ### Behavior of the request handlers -/

theorem add_file_ok {N : Nat} (c : Chunk N) (fs : Fs) (index : List (List Nat))
    (f payload rest : List Nat) (sz : Nat) (base : List Nat)
    (h8 : 8 ≤ N) (hf : f.length ≤ N) (hflt : f.length < 2 ^ 64)
    (hsz : sz < 2 ^ 64) (hszpos : 0 < sz) (hp : payload.length = sz)
    (hbase : pathFileName f = some base)
    (hin : c.input = uploadRequest f sz payload ++ rest) :
    ∃ c2, add_file c fs index =
        .ok (c2, fsWrite fs base payload, indexInsert base index) ∧
      c2.input = rest ∧ c2.output = c.output := by
  rw [uploadRequest] at hin
  obtain ⟨c1, hrs, hin1, hout1⟩ :=
    read_string_ok c f (toLeBytes 8 sz ++ payload ++ rest) h8 hf hflt
      (by rw [hin]; simp [List.append_assoc])
  rw [add_file, hrs]
  simp only [Outcome.andThen]
  obtain ⟨c2, hru, hin2, hout2⟩ :=
    read_usize_ok' c1 sz (payload ++ rest) h8 hsz
      (by rw [hin1]; simp [List.append_assoc])
  rw [hru]
  simp only [Outcome.andThen]
  obtain ⟨c3, hrecv, hin3, hout3⟩ :=
    receive_file_ok c2 sz payload rest (by omega) hszpos hp hin2
  rw [hrecv]
  simp only [Outcome.andThen]
  rw [hbase]
  exact ⟨c3, rfl, hin3, by rw [hout3, hout2, hout1]⟩

theorem add_file_zero {N : Nat} (c : Chunk N) (fs : Fs) (index : List (List Nat))
    (f rest : List Nat) (base : List Nat)
    (h8 : 8 ≤ N) (hf : f.length ≤ N) (hflt : f.length < 2 ^ 64)
    (hbase : pathFileName f = some base)
    (hin : c.input = encodeString f ++ toLeBytes 8 0 ++ rest) :
    ∃ c2, add_file c fs index = .ok (c2, fs, index) ∧
      c2.input = rest ∧ c2.output = c.output := by
  obtain ⟨c1, hrs, hin1, hout1⟩ :=
    read_string_ok c f (toLeBytes 8 0 ++ rest) h8 hf hflt
      (by rw [hin]; simp [List.append_assoc])
  rw [add_file, hrs]
  simp only [Outcome.andThen]
  obtain ⟨c2, hru, hin2, hout2⟩ := read_usize_ok' c1 0 rest h8 (by norm_num) hin1
  rw [hru]
  simp only [Outcome.andThen]
  rw [receive_file, if_pos rfl]
  simp only [Outcome.andThen]
  rw [hbase]
  exact ⟨c2, rfl, hin2, by rw [hout2, hout1]⟩

theorem add_file_no_base {N : Nat} (c : Chunk N) (fs : Fs) (index : List (List Nat))
    (f payload rest : List Nat) (sz : Nat)
    (h8 : 8 ≤ N) (hf : f.length ≤ N) (hflt : f.length < 2 ^ 64)
    (hsz : sz < 2 ^ 64) (hszpos : 0 < sz) (hp : payload.length = sz)
    (hbase : pathFileName f = none)
    (hin : c.input = uploadRequest f sz payload ++ rest) :
    add_file c fs index = .panicked := by
  rw [uploadRequest] at hin
  obtain ⟨c1, hrs, hin1, hout1⟩ :=
    read_string_ok c f (toLeBytes 8 sz ++ payload ++ rest) h8 hf hflt
      (by rw [hin]; simp [List.append_assoc])
  rw [add_file, hrs]
  simp only [Outcome.andThen]
  obtain ⟨c2, hru, hin2, hout2⟩ :=
    read_usize_ok' c1 sz (payload ++ rest) h8 hsz
      (by rw [hin1]; simp [List.append_assoc])
  rw [hru]
  simp only [Outcome.andThen]
  obtain ⟨c3, hrecv, hin3, hout3⟩ :=
    receive_file_ok c2 sz payload rest (by omega) hszpos hp hin2
  rw [hrecv]
  simp only [Outcome.andThen]
  rw [hbase]

theorem writeStrings_ok {N : Nat} (h8 : 8 ≤ N) :
    ∀ (names : List (List Nat)) (c : Chunk N), (∀ n ∈ names, n.length ≤ N) →
      ∃ c2, writeStrings names c = .ok c2 ∧
        c2.output = c.output ++ encodeStrings names ∧ c2.input = c.input
  | [], c, _ => ⟨c, rfl, by simp [encodeStrings], rfl⟩
  | s :: rest, c, h => by
    obtain ⟨c1, hw, hout1, hin1⟩ := write_string_ok c s h8 (h s (by simp))
    rw [writeStrings, hw]
    simp only [Outcome.andThen]
    obtain ⟨c2, hrun, hout2, hin2⟩ :=
      writeStrings_ok h8 rest c1 (fun n hn => h n (by simp [hn]))
    exact ⟨c2, hrun,
      by rw [hout2, hout1]; simp [encodeStrings, List.append_assoc],
      by rw [hin2, hin1]⟩

theorem fetch_files_ok {N : Nat} (c : Chunk N) (index : List (List Nat)) (h8 : 8 ≤ N)
    (h : ∀ n ∈ index, n.length ≤ N) :
    ∃ c2, fetch_files c index = .ok c2 ∧
      c2.output = c.output ++ toLeBytes 8 index.length ++ encodeStrings index ∧
      c2.input = c.input := by
  rw [fetch_files, write_usize_ok c index.length h8]
  simp only [Outcome.andThen]
  obtain ⟨c2, hrun, hout, hin⟩ := writeStrings_ok h8 index _ h
  exact ⟨c2, hrun, by simp [hout, List.append_assoc], by rw [hin]⟩

/-- A duplicate-free list holds each of its elements exactly once. -/
theorem count_eq_one_of_mem_nodup {α : Type} [BEq α] [LawfulBEq α] :
    ∀ (l : List α) (a : α), l.Nodup → a ∈ l → l.count a = 1
  | [], a, _, ha => absurd ha (List.not_mem_nil a)
  | b :: t, a, h, ha => by
    obtain ⟨hb, ht⟩ := List.nodup_cons.mp h
    rcases List.mem_cons.mp ha with rfl | hat
    · rw [List.count_cons_self, List.count_eq_zero.mpr hb]
    · have hne : a ≠ b := fun he => hb (he ▸ hat)
      rw [List.count_cons_of_ne hne]
      exact count_eq_one_of_mem_nodup t a ht hat

/-- A duplicate-free set representation holds an inserted element exactly
once (the `HashSet` set-semantics fact behind the file index). -/
theorem count_indexInsert_self (a : List Nat) (l : List (List Nat))
    (h : l.Nodup) : (indexInsert a l).count a = 1 := by
  rw [indexInsert]
  rcases Decidable.em (a ∈ l) with hm | hm
  · rw [if_pos hm]
    exact count_eq_one_of_mem_nodup l a h hm
  · rw [if_neg hm, List.count_cons_self, List.count_eq_zero.mpr hm]

/-- Inserting into a duplicate-free index keeps it duplicate-free. -/
theorem nodup_indexInsert (a : List Nat) (l : List (List Nat))
    (h : l.Nodup) : (indexInsert a l).Nodup := by
  rw [indexInsert]
  rcases Decidable.em (a ∈ l) with hm | hm
  · rw [if_pos hm]; exact h
  · rw [if_neg hm]; exact List.nodup_cons.mpr ⟨hm, h⟩

/-- Members of an index after an insert are the inserted name or old
members. -/
theorem mem_indexInsert {x a : List Nat} {l : List (List Nat)}
    (h : x ∈ indexInsert a l) : x = a ∨ x ∈ l := by
  rw [indexInsert] at h
  rcases Decidable.em (a ∈ l) with hm | hm
  · rw [if_pos hm] at h; exact Or.inr h
  · rw [if_neg hm] at h; exact List.mem_cons.mp h

/-! ### Claim theorems -/

/-- C1, counterexample: for the empty byte sequence (size 0) the claimed
round trip does NOT reproduce the original sequence — `send_file` writes
the zero size prefix and `receive_file 0` returns the absent marker
`none`, not a byte sequence of length 0. -/
theorem sendReceiveEmptyYieldsAbsent :
    loopback 8 [] = .ok none ∧ loopback 8 [] ≠ .ok (some []) := by decide

/-- C1, amended: for every nonzero byte sequence (covering sizes below,
equal to, a non-multiple of, and a large multiple of the buffer capacity
`N`), `send_file` followed by reading the size prefix and `receive_file`
at that declared size reproduces exactly the original byte sequence
(`some file`, whose length is the declared size). -/
theorem sendReceiveRoundTripNonzero (N : Nat) (file : List Nat)
    (h8 : 8 ≤ N) (hne : file ≠ []) (hlt : file.length < 2 ^ 64) :
    loopback N file = .ok (some file) := by
  obtain ⟨c1, hsend, hout, _⟩ := send_file_ok (Chunk.init N []) file h8
  have hout' : c1.output = toLeBytes 8 file.length ++ file := by
    rw [hout]; rfl
  unfold loopback
  simp only [hsend]
  obtain ⟨d1, hru, hind1, _⟩ :=
    read_usize_ok' (Chunk.init N c1.output) file.length file h8 hlt
      (by rw [show (Chunk.init N c1.output).input = c1.output from rfl, hout'])
  simp only [hru]
  obtain ⟨d2, hrecv, _, _⟩ :=
    receive_file_ok d1 file.length file [] (by omega)
      (List.length_pos.mpr hne) rfl (by rw [hind1]; simp)
  simp only [hrecv]

/-- C1 witness input: a 20-byte sequence streamed through capacity 8
(a non-multiple needing three loop iterations). -/
theorem sendReceiveRoundTripNonzero_witness :
    8 ≤ 8 ∧
    ([1, 2, 3, 4, 5, 6, 7, 8, 9, 10, 11, 12, 13, 14, 15, 16, 17, 18, 19, 20] :
      List Nat) ≠ [] ∧
    ([1, 2, 3, 4, 5, 6, 7, 8, 9, 10, 11, 12, 13, 14, 15, 16, 17, 18, 19, 20] :
      List Nat).length < 2 ^ 64 ∧
    loopback 8 [1, 2, 3, 4, 5, 6, 7, 8, 9, 10, 11, 12, 13, 14, 15, 16, 17, 18, 19, 20] =
      .ok (some [1, 2, 3, 4, 5, 6, 7, 8, 9, 10, 11, 12, 13, 14, 15, 16, 17, 18, 19, 20]) :=
  ⟨by decide, by decide, by decide,
    sendReceiveRoundTripNonzero 8 _ (by decide) (by decide) (by decide)⟩

/-- C2, amended: encoding then decoding through the wire codec yields the
original string for every string of UTF-8 byte length at most the buffer
capacity `N`; and a zero length prefix decodes to the empty string,
short-circuiting with the rest of the stream untouched (no second
read). -/
theorem stringRoundTripWithinCapacity (N : Nat) (s : List Nat)
    (h8 : 8 ≤ N) (hs : s.length ≤ N) (hlt : s.length < 2 ^ 64) :
    stringLoopback N s = .ok s ∧
      ∀ rest : List Nat, ∃ c0,
        read_string (Chunk.init N (toLeBytes 8 0 ++ rest)) = .ok ([], c0) ∧
          c0.input = rest := by
  constructor
  · obtain ⟨c1, hw, hout, _⟩ := write_string_ok (Chunk.init N []) s h8 hs
    unfold stringLoopback
    simp only [hw]
    obtain ⟨c2, hr, _, _⟩ :=
      read_string_ok (Chunk.init N c1.output) s [] h8 hs hlt
        (by rw [show (Chunk.init N c1.output).input = c1.output from rfl, hout]
            simp [Chunk.init])
    simp only [hr]
  · intro rest
    obtain ⟨c0, hr, hinp, _⟩ :=
      read_string_ok (Chunk.init N (toLeBytes 8 0 ++ rest)) [] rest h8
        (by simp) (by norm_num)
        (by rw [show (Chunk.init N (toLeBytes 8 0 ++ rest)).input =
              toLeBytes 8 0 ++ rest from rfl]; simp [encodeString])
    exact ⟨c0, hr, hinp⟩

/-- C2 witness input: a 2-byte string through capacity 8, and the zero
prefix followed by leftover bytes. -/
theorem stringRoundTripWithinCapacity_witness :
    8 ≤ 8 ∧ ([97, 98] : List Nat).length ≤ 8 ∧ ([97, 98] : List Nat).length < 2 ^ 64 ∧
    (stringLoopback 8 [97, 98] = .ok [97, 98] ∧
      ∀ rest : List Nat, ∃ c0,
        read_string (Chunk.init 8 (toLeBytes 8 0 ++ rest)) = .ok ([], c0) ∧
          c0.input = rest) :=
  ⟨by decide, by decide, by decide,
    stringRoundTripWithinCapacity 8 [97, 98] (by decide) (by decide) (by decide)⟩

/-- C2, counterexample: a 9-byte string through capacity 8 does not round
trip — `write_string`'s second `write_and_send` panics in
`copy_from_slice` (length mismatch 8 vs 9), so encoding already fails. -/
theorem stringRoundTripFailsBeyondCapacity :
    stringLoopback 8 (List.replicate 9 0) = .panicked ∧
      stringLoopback 8 (List.replicate 9 0) ≠ .ok (List.replicate 9 0) := by decide

/-- C3: evaluating `write_and_send` at an input one byte longer than the
buffer (capacity 2, three bytes) shows the code panics in
`copy_from_slice` (`bytes_to_write = 2` but `items.len() = 3`) instead of
silently truncating to 2 bytes and sending them as the specification
describes. -/
theorem writeAndSendPanicsBeyondCapacity :
    Chunk.write_and_send (Chunk.init 2 []) [1, 2, 3] = .panicked := by decide

/-- C6, counterexample: decoding the 8-byte uint prefix from an exhausted
stream does not return the underlying I/O error to the caller —
`read_usize` calls `.expect(...)` and panics. -/
theorem readUsizePanicsOnEof :
    read_usize (Chunk.init 8 []) = .panicked ∧
      read_usize (Chunk.init 8 []) ≠ .ioError := by decide

/-- C6, amended: the payload portion of a string decode does surface the
underlying I/O error to the caller — when the stream ends before the
declared byte count arrives, `read_string` returns the `read_exact`
error (it is only the 8-byte prefix read inside `read_usize` that panics
instead, see the counterexample). -/
theorem payloadReadErrorPropagates (N sz : Nat) (c : Chunk N) (part : List Nat)
    (h8 : 8 ≤ N) (hszpos : 0 < sz) (hszN : sz ≤ N) (hszlt : sz < 2 ^ 64)
    (hin : c.input = toLeBytes 8 sz ++ part) (hshort : part.length < sz) :
    read_string c = .ioError := by
  obtain ⟨c1, hru, hin1, _⟩ := read_usize_ok' c sz part h8 hszlt hin
  rw [read_string, hru]
  simp only [Outcome.andThen]
  rw [if_neg (by omega)]
  have : ¬ sz ≤ c1.input.length := by rw [hin1]; omega
  rw [Chunk.read_stream, if_pos hszN, if_neg this]

/-- C6 witness input: prefix declares 4 bytes, only one arrives. -/
theorem payloadReadErrorPropagates_witness :
    8 ≤ 8 ∧ 0 < 4 ∧ 4 ≤ 8 ∧ 4 < 2 ^ 64 ∧
    (Chunk.init 8 (toLeBytes 8 4 ++ [1])).input = toLeBytes 8 4 ++ [1] ∧
    ([1] : List Nat).length < 4 ∧
    read_string (Chunk.init 8 (toLeBytes 8 4 ++ [1])) = .ioError :=
  ⟨by decide, by decide, by decide, by decide, rfl, by decide,
    payloadReadErrorPropagates 8 4 _ [1] (by decide) (by decide) (by decide)
      (by decide) rfl (by decide)⟩

/-- C5: when the first byte of a dispatch iteration is any op code outside
0..3, the connection handler hits `panic!("Unknown op byte")`: the whole
dispatch loop ends in the panic regardless of how much more input follows
and how much fuel remains, so no further op code is ever processed on that
connection. -/
theorem unknownOpByteAborts {N : Nat} (fuel : Nat) (c : Chunk N) (fs : Fs)
    (index : List (List Nat)) (op : Nat) (rest : List Nat)
    (h1 : 1 ≤ N) (hop4 : 4 ≤ op) (hop256 : op < 256) (hin : c.input = op :: rest) :
    run_loop (fuel + 1) c fs index = .panicked := by
  rcases op with _ | _ | _ | _ | k
  · omega
  · omega
  · omega
  · omega
  · rw [run_loop, handle_op, Chunk.read_stream_ok c 1 h1 (by rw [hin]; simp)]
    simp only [Outcome.andThen, hin]
    simp [Chunk.to_byte_array, h1, Outcome.andThen]

/-- C5 witness input: op byte 9 on a capacity-8 channel. -/
theorem unknownOpByteAborts_witness :
    1 ≤ 8 ∧ 4 ≤ 9 ∧ 9 < 256 ∧ (Chunk.init 8 [9]).input = 9 :: [] ∧
    run_loop 1 (Chunk.init 8 [9]) [] [] = .panicked :=
  ⟨by decide, by decide, by decide, rfl,
    unknownOpByteAborts 0 (Chunk.init 8 [9]) [] [] 9 [] (by decide) (by decide)
      (by decide) rfl⟩

/-- C4, counterexample: an Upload with declared size 0 succeeds but skips
the index insert, so a name uploaded that way (here the one-byte name
formed by byte 97) is absent from a subsequent listing, not present
exactly once. -/
theorem uploadZeroSizeNotListed :
    indexAfter (add_file (Chunk.init 8 (uploadRequest [97] 0 [])) [] []) = some [] ∧
      ([] : List (List Nat)).count [97] ≠ 1 := by decide

/-- C4, amended: for every successful Upload with NONZERO declared size,
the base name is inserted into the index, and after one or two such
uploads of the same name the index — and hence the name sequence a
ListFiles response writes — holds the base name exactly once (set
semantics, no duplicates). -/
theorem uploadInsertsBaseNameOnce {N : Nat} (c : Chunk N) (fs : Fs)
    (index : List (List Nat)) (f p1 p2 rest : List Nat) (sz1 sz2 : Nat)
    (base : List Nat)
    (h8 : 8 ≤ N) (hf : f.length ≤ N) (hflt : f.length < 2 ^ 64)
    (hsz1 : sz1 < 2 ^ 64) (hsz1pos : 0 < sz1) (hp1 : p1.length = sz1)
    (hsz2 : sz2 < 2 ^ 64) (hsz2pos : 0 < sz2) (hp2 : p2.length = sz2)
    (hbase : pathFileName f = some base) (hnodup : index.Nodup)
    (hbN : base.length ≤ N) (hiN : ∀ n ∈ index, n.length ≤ N)
    (hin : c.input = uploadRequest f sz1 p1 ++ (uploadRequest f sz2 p2 ++ rest)) :
    ∃ c1 c2 cf,
      add_file c fs index =
        .ok (c1, fsWrite fs base p1, indexInsert base index) ∧
      add_file c1 (fsWrite fs base p1) (indexInsert base index) =
        .ok (c2, fsWrite (fsWrite fs base p1) base p2,
             indexInsert base (indexInsert base index)) ∧
      (indexInsert base index).count base = 1 ∧
      (indexInsert base (indexInsert base index)).count base = 1 ∧
      fetch_files (Chunk.init N []) (indexInsert base (indexInsert base index)) =
        .ok cf ∧
      cf.output =
        toLeBytes 8 (indexInsert base (indexInsert base index)).length ++
          encodeStrings (indexInsert base (indexInsert base index)) := by
  obtain ⟨c1, hup1, hin1, _⟩ :=
    add_file_ok c fs index f p1 (uploadRequest f sz2 p2 ++ rest) sz1 base
      h8 hf hflt hsz1 hsz1pos hp1 hbase hin
  obtain ⟨c2, hup2, _, _⟩ :=
    add_file_ok c1 (fsWrite fs base p1) (indexInsert base index) f p2 rest sz2 base
      h8 hf hflt hsz2 hsz2pos hp2 hbase hin1
  have hmemiN : ∀ n ∈ indexInsert base (indexInsert base index), n.length ≤ N := by
    intro n hn
    rcases mem_indexInsert hn with h | hn
    · rw [h]; exact hbN
    rcases mem_indexInsert hn with h | hn
    · rw [h]; exact hbN
    exact hiN n hn
  obtain ⟨cf, hfetch, hfout, _⟩ :=
    fetch_files_ok (Chunk.init N [])
      (indexInsert base (indexInsert base index)) h8 hmemiN
  refine ⟨c1, c2, cf, hup1, hup2,
    count_indexInsert_self base index hnodup, ?_, hfetch, ?_⟩
  · exact count_indexInsert_self base (indexInsert base index)
      (nodup_indexInsert base index hnodup)
  · rw [hfout]; rfl

/-- C4 witness input: the name formed by byte 97 uploaded twice with
one-byte payloads into an empty index. -/
theorem uploadInsertsBaseNameOnce_witness :
    8 ≤ 8 ∧ ([97] : List Nat).length ≤ 8 ∧ ([97] : List Nat).length < 2 ^ 64 ∧
    1 < 2 ^ 64 ∧ 0 < 1 ∧ ([5] : List Nat).length = 1 ∧ ([6] : List Nat).length = 1 ∧
    pathFileName [97] = some [97] ∧ ([] : List (List Nat)).Nodup ∧
    (Chunk.init 8 (uploadRequest [97] 1 [5] ++ (uploadRequest [97] 1 [6] ++ []))).input =
      uploadRequest [97] 1 [5] ++ (uploadRequest [97] 1 [6] ++ []) ∧
    ∃ c1 c2 cf,
      add_file (Chunk.init 8 (uploadRequest [97] 1 [5] ++ (uploadRequest [97] 1 [6] ++ [])))
          [] [] = .ok (c1, fsWrite [] [97] [5], indexInsert [97] []) ∧
      add_file c1 (fsWrite [] [97] [5]) (indexInsert [97] []) =
        .ok (c2, fsWrite (fsWrite [] [97] [5]) [97] [6],
             indexInsert [97] (indexInsert [97] [])) ∧
      (indexInsert [97] ([] : List (List Nat))).count [97] = 1 ∧
      (indexInsert [97] (indexInsert [97] ([] : List (List Nat)))).count [97] = 1 ∧
      fetch_files (Chunk.init 8 []) (indexInsert [97] (indexInsert [97] [])) = .ok cf ∧
      cf.output =
        toLeBytes 8 (indexInsert [97] (indexInsert [97] ([] : List (List Nat)))).length ++
          encodeStrings (indexInsert [97] (indexInsert [97] [])) :=
  ⟨by decide, by decide, by decide, by decide, by decide, by decide, by decide,
    by decide, by decide, rfl,
    uploadInsertsBaseNameOnce
      (Chunk.init 8 (uploadRequest [97] 1 [5] ++ (uploadRequest [97] 1 [6] ++ [])))
      [] [] [97] [5] [6] [] 1 1 [97]
      (by decide) (by decide) (by decide) (by decide) (by decide) (by decide)
      (by decide) (by decide) (by decide) (by decide) (by decide) (by decide)
      (by intro n hn; cases hn) rfl⟩

/-- C7, counterexample: in the ListFiles handler the index mutex guard is
taken before any write and dropped only at the end of the function, so
already the `write_usize` of the count is stream I/O performed while the
lock is held — the trace of `fetch_files` on an empty index contains I/O
under the lock. -/
theorem listFilesWritesUnderLock :
    ioWhileLocked false (fetchFilesEvents []) = true := by decide

/-- C7, amended: the Upload handler holds the index lock only around the
`insert` (no stream or filesystem I/O happens between acquire and
release), but the ListFiles handler performs the count write and every
name write while holding the lock. -/
theorem lockDiscipline :
    (∀ stored : Bool, ioWhileLocked false (addFileEvents stored) = false) ∧
      ∀ index : List (List Nat), ioWhileLocked false (fetchFilesEvents index) = true := by
  constructor
  · intro stored
    cases stored <;> rfl
  · intro index
    rfl

/-- C8: a Download naming a file absent from the server directory makes
`get_file` write the zero uint sentinel and return success; on the client
side the zero prefix decodes through `receive_file` to the explicit
absent result `none` — not an I/O error and not a zero-byte file. -/
theorem downloadAbsentYieldsSentinel {N : Nat} (c : Chunk N) (fs : Fs)
    (name rest : List Nat)
    (h8 : 8 ≤ N) (hname : name.length ≤ N) (hlt : name.length < 2 ^ 64)
    (habs : fsLookup fs name = none) (hin : c.input = encodeString name ++ rest) :
    (∃ c2, get_file c fs = .ok c2 ∧
      c2.output = c.output ++ toLeBytes 8 0 ∧ c2.input = rest) ∧
      ∀ rest2 : List Nat, ∃ d1,
        read_usize (Chunk.init N (toLeBytes 8 0 ++ rest2)) = .ok (0, d1) ∧
          receive_file d1 0 = .ok (none, d1) := by
  constructor
  · obtain ⟨c1, hrs, hin1, hout1⟩ := read_string_ok c name rest h8 hname hlt hin
    rw [get_file, hrs]
    simp only [Outcome.andThen]
    rw [habs, write_usize_ok c1 0 h8]
    exact ⟨_, rfl, by rw [hout1], by rw [hin1]⟩
  · intro rest2
    obtain ⟨d1, hru, _, _⟩ :=
      read_usize_ok' (Chunk.init N (toLeBytes 8 0 ++ rest2)) 0 rest2 h8
        (by norm_num) rfl
    exact ⟨d1, hru, by rw [receive_file, if_pos rfl]⟩

/-- C8 witness input: requesting the one-byte name 97 from an empty
directory on a capacity-8 channel. -/
theorem downloadAbsentYieldsSentinel_witness :
    8 ≤ 8 ∧ ([97] : List Nat).length ≤ 8 ∧ ([97] : List Nat).length < 2 ^ 64 ∧
    fsLookup [] [97] = none ∧
    (Chunk.init 8 (encodeString [97])).input = encodeString [97] ++ [] ∧
    ((∃ c2, get_file (Chunk.init 8 (encodeString [97])) [] = .ok c2 ∧
        c2.output = (Chunk.init 8 (encodeString [97])).output ++ toLeBytes 8 0 ∧
        c2.input = []) ∧
      ∀ rest2 : List Nat, ∃ d1,
        read_usize (Chunk.init 8 (toLeBytes 8 0 ++ rest2)) = .ok (0, d1) ∧
          receive_file d1 0 = .ok (none, d1)) :=
  ⟨by decide, by decide, by decide, by decide, by simp [Chunk.init],
    downloadAbsentYieldsSentinel (Chunk.init 8 (encodeString [97])) [] [97] []
      (by decide) (by decide) (by decide) (by decide) (by simp [Chunk.init])⟩

/-- C9, counterexample: a size-0 Upload does NOT always complete — the
base-name extraction runs before the payload check, so a size-0 Upload of
the name `..` (bytes 46 46) panics in `file_name().unwrap()` instead of
completing successfully. -/
theorem uploadZeroSizeDotDotPanics :
    add_file (Chunk.init 8 (encodeString [46, 46] ++ toLeBytes 8 0 ++ [])) [] [] =
      .panicked := by decide

/-- C9, amended: for every Upload whose declared size is 0 and whose file
name has a final path component, the handler completes successfully,
consumes exactly the request, writes no file, and leaves the index
unchanged (`receive_file` returns the absent marker, and both the
filesystem write and the index insert are skipped). -/
theorem uploadZeroSizeNoEffect {N : Nat} (c : Chunk N) (fs : Fs)
    (index : List (List Nat)) (f rest : List Nat) (base : List Nat)
    (h8 : 8 ≤ N) (hf : f.length ≤ N) (hflt : f.length < 2 ^ 64)
    (hbase : pathFileName f = some base)
    (hin : c.input = encodeString f ++ toLeBytes 8 0 ++ rest) :
    ∃ c2, add_file c fs index = .ok (c2, fs, index) ∧
      c2.input = rest ∧ c2.output = c.output :=
  add_file_zero c fs index f rest base h8 hf hflt hbase hin

/-- C9 witness input: size-0 upload of the one-byte name 97. -/
theorem uploadZeroSizeNoEffect_witness :
    8 ≤ 8 ∧ ([97] : List Nat).length ≤ 8 ∧ ([97] : List Nat).length < 2 ^ 64 ∧
    pathFileName [97] = some [97] ∧
    (Chunk.init 8 (encodeString [97] ++ toLeBytes 8 0 ++ [])).input =
      encodeString [97] ++ toLeBytes 8 0 ++ [] ∧
    ∃ c2, add_file (Chunk.init 8 (encodeString [97] ++ toLeBytes 8 0 ++ []))
        ([] : Fs) ([] : List (List Nat)) = .ok (c2, [], []) ∧
      c2.input = [] ∧ c2.output = (Chunk.init 8 (encodeString [97] ++ toLeBytes 8 0 ++ [])).output :=
  ⟨by decide, by decide, by decide, by decide, rfl,
    uploadZeroSizeNoEffect _ [] [] [97] [] [97] (by decide) (by decide) (by decide)
      (by decide) rfl⟩

/-- C10: an Upload request with nonzero declared size whose file name has
no final path component (for example the empty name or `..`) drives the
handler into `Path::file_name().unwrap()` on `None`: `add_file` panics
rather than returning an I/O error or completing the upload. -/
theorem uploadNoBaseNamePanics {N : Nat} (c : Chunk N) (fs : Fs)
    (index : List (List Nat)) (f payload rest : List Nat) (sz : Nat)
    (h8 : 8 ≤ N) (hf : f.length ≤ N) (hflt : f.length < 2 ^ 64)
    (hsz : sz < 2 ^ 64) (hszpos : 0 < sz) (hp : payload.length = sz)
    (hbase : pathFileName f = none)
    (hin : c.input = uploadRequest f sz payload ++ rest) :
    add_file c fs index = .panicked :=
  add_file_no_base c fs index f payload rest sz h8 hf hflt hsz hszpos hp hbase hin

/-- C10 witness input: uploading one byte under the name `..`. -/
theorem uploadNoBaseNamePanics_witness :
    8 ≤ 8 ∧ ([46, 46] : List Nat).length ≤ 8 ∧ ([46, 46] : List Nat).length < 2 ^ 64 ∧
    1 < 2 ^ 64 ∧ 0 < 1 ∧ ([55] : List Nat).length = 1 ∧ pathFileName [46, 46] = none ∧
    add_file (Chunk.init 8 (uploadRequest [46, 46] 1 [55] ++ [])) [] [] = .panicked :=
  ⟨by decide, by decide, by decide, by decide, by decide, by decide, by decide,
    uploadNoBaseNamePanics _ [] [] [46, 46] [55] [] 1 (by decide) (by decide)
      (by decide) (by decide) (by decide) (by decide) (by decide) rfl⟩

end P2P
